import Mathlib

/-!
Verification of the message/middleware layer of the picoagents examples.

Each definition is a shallow embedding of a function of the repository
(file and symbol named in its doc comment).  Machine integers are modelled
as `Nat`/`Int`, Python floats as exact rationals `ℚ`, Python strings as
`String` or `List Char` (ASCII semantics), raising as `Except`.
-/

set_option maxRecDepth 4000

/-! ## Message model

Message variants used by the context-management middlewares
(`picoagents.messages`: `SystemMessage`, `UserMessage`, `AssistantMessage`
with `tool_calls`, `ToolMessage` with `call_id`).  Tool-call ids are
modelled as `Nat`, message content as `String`. -/

inductive Msg where
  | system (content : String)
  | user (content : String)
  | assistant (content : String) (toolCalls : List Nat)
  | tool (callId : Nat) (content : String)
  deriving DecidableEq, Repr

/-- `m.role == "system"` in `context_strategies.py`. -/
def isSystemMsg : Msg → Bool
  | .system _ => true
  | _ => false

/-- `m` is an `AssistantMessage` whose `tool_calls` contain `cid`. -/
def isAssistantWithCall (cid : Nat) : Msg → Bool
  | .assistant _ calls => calls.contains cid
  | _ => false

/-! ## ContextCompactionMiddleware._compact_messages
(src/examples/contextengineering/context_strategies.py, lines 53-59)

```python
def _compact_messages(self, messages):
    if len(messages) <= (self.keep_last_turns * 2 + 2):
        return messages
    system_messages = [m for m in messages if m.role == "system"]
    conversation = [m for m in messages if m.role != "system"]
    recent_conversation = conversation[-(self.keep_last_turns * 2):]
    return system_messages + recent_conversation
```

For `keep_last_turns ≥ 1` the negative-index slice `conversation[-(k):]`
is the suffix of length `min k len`, i.e. `drop (len - k)`. -/

def compactMessages (keepLastTurns : Nat) (messages : List Msg) : List Msg :=
  if messages.length ≤ keepLastTurns * 2 + 2 then messages
  else
    let systemMessages := messages.filter isSystemMsg
    let conversation := messages.filter (fun m => !isSystemMsg m)
    let recentConversation := conversation.drop (conversation.length - keepLastTurns * 2)
    systemMessages ++ recentConversation

/-! ## ContextManagementMiddleware (middleware_custom.py, lines 191-272) -/

/-- `_group_into_conversation_turns`: system messages are their own turn, a
user message starts a new turn, assistant/tool messages join the current
turn.  Accumulator form of the Python loop over `messages`. -/
def groupTurnsAux : List Msg → List Msg → List (List Msg) → List (List Msg)
  | [], current, turns => turns ++ (if current.isEmpty then [] else [current])
  | m :: rest, current, turns =>
    match m with
    | .system c =>
        groupTurnsAux rest []
          ((turns ++ (if current.isEmpty then [] else [current])) ++ [[Msg.system c]])
    | .user c => groupTurnsAux rest [Msg.user c] (turns ++ (if current.isEmpty then [] else [current]))
    | m => groupTurnsAux rest (current ++ [m]) turns

def groupTurns (messages : List Msg) : List (List Msg) :=
  groupTurnsAux messages [] []

/-- Python: `len(turn) == 1 and isinstance(turn[0], SystemMessage)`. -/
def isSystemTurn : List Msg → Bool
  | [Msg.system _] => true
  | _ => false

def systemTurnsOf (messages : List Msg) : List (List Msg) :=
  (groupTurns messages).filter isSystemTurn

/-- Python: `[turn for turn in turns if turn not in system_turns]`.  (A turn
equals a member of `system_turns` exactly when it is itself a single system
message, so the value-membership test coincides with the predicate; we keep
the literal membership test.) -/
def conversationTurnsOf (messages : List Msg) : List (List Msg) :=
  (groupTurns messages).filter (fun t => !decide (t ∈ systemTurnsOf messages))

/-- The `for turn in reversed(conversation_turns)` loop of
`_trim_context_intelligently`: greedily keep whole recent turns while the
running message count stays within `available`; stop at the first turn that
does not fit.  The argument is the reversed turn list; kept turns are
re-assembled in original order. -/
def keepRecentAux : List (List Msg) → Int → Int → List (List Msg)
  | [], _, _ => []
  | t :: rest, cnt, available =>
    if cnt + (t.length : Int) ≤ available then
      keepRecentAux rest (cnt + (t.length : Int)) available ++ [t]
    else []

/-- `_trim_context_intelligently` (middleware_custom.py lines 227-272):
if the list fits in `max_messages` return it unchanged, otherwise keep all
system turns plus as many recent whole conversation turns as fit in the
remaining budget.  `available` is an `Int` because the Python subtraction
may go negative. -/
def trimContext (maxMessages : Nat) (messages : List Msg) : List Msg :=
  if messages.length ≤ maxMessages then messages
  else
    let systemTurns := systemTurnsOf messages
    let conversationTurns := conversationTurnsOf messages
    let systemMsgCount := (systemTurns.map List.length).sum
    let available : Int := (maxMessages : Int) - (systemMsgCount : Int)
    let kept := keepRecentAux conversationTurns.reverse 0 available
    (systemTurns ++ kept).flatten

/-- Well-formed conversation: inside every conversation turn, each tool
message's `call_id` is issued by some assistant message of the same turn
(the agent loop appends tool results directly after the assistant message
that requested them, before any further user message). -/
def wellFormedTurns (messages : List Msg) : Bool :=
  (groupTurns messages).all fun t =>
    t.all fun m =>
      match m with
      | .tool cid _ => t.any (isAssistantWithCall cid)
      | _ => true

/-! ## workspace/calculator.py -/

/-- `divide` (src/workspace/calculator.py lines 40-55); numbers are
modelled as exact rationals. -/
def divide (a b : ℚ) : Except String ℚ :=
  if b = 0 then .error "Cannot divide by zero."
  else .ok (a / b)

/-! ## Supporting lemmas: turn grouping -/

theorem groupTurnsAux_flatten :
    ∀ (msgs current : List Msg) (turns : List (List Msg)),
      (groupTurnsAux msgs current turns).flatten = turns.flatten ++ current ++ msgs
  | [], current, turns => by
    cases current <;> simp [groupTurnsAux]
  | .system c :: rest, current, turns => by
    cases current <;>
      simp [groupTurnsAux, groupTurnsAux_flatten rest _ _, List.append_assoc]
  | .user c :: rest, current, turns => by
    cases current <;>
      simp [groupTurnsAux, groupTurnsAux_flatten rest _ _, List.append_assoc]
  | .assistant c tc :: rest, current, turns => by
    simp [groupTurnsAux, groupTurnsAux_flatten rest _ _, List.append_assoc]
  | .tool cid c :: rest, current, turns => by
    simp [groupTurnsAux, groupTurnsAux_flatten rest _ _, List.append_assoc]

theorem groupTurns_flatten (messages : List Msg) :
    (groupTurns messages).flatten = messages := by
  simpa using groupTurnsAux_flatten messages [] []

theorem keepRecentAux_suffix :
    ∀ (rev : List (List Msg)) (cnt available : Int),
      keepRecentAux rev cnt available <:+ rev.reverse
  | [], _, _ => by simp [keepRecentAux]
  | t :: rest, cnt, available => by
    rw [keepRecentAux]
    split
    · obtain ⟨w, hw⟩ := keepRecentAux_suffix rest (cnt + (t.length : Int)) available
      exact ⟨w, by rw [List.reverse_cons, ← hw, List.append_assoc]⟩
    · exact List.nil_suffix

theorem isSystemTurn_shape {t : List Msg} (h : isSystemTurn t = true) :
    ∃ c, t = [Msg.system c] := by
  cases t with
  | nil => simp [isSystemTurn] at h
  | cons m rest =>
    cases rest with
    | nil => cases m <;> simp_all [isSystemTurn]
    | cons m' rest' => cases m <;> simp [isSystemTurn] at h

/-- Output structure of `_trim_context_intelligently`: either the input is
short enough and returned unchanged, or the output is exactly the system
turns followed by a suffix of whole conversation turns. -/
theorem trimContext_structure (maxMessages : Nat) (messages : List Msg) :
    trimContext maxMessages messages = messages ∨
    ∃ kept, kept <:+ conversationTurnsOf messages ∧
      trimContext maxMessages messages = (systemTurnsOf messages ++ kept).flatten := by
  unfold trimContext
  split
  · exact Or.inl rfl
  · refine Or.inr ⟨_, ?_, rfl⟩
    simpa using keepRecentAux_suffix (conversationTurnsOf messages).reverse 0 _

/-- C1 (amended): `_trim_context_intelligently` keeps conversation turns
atomic.  For every well-formed input (each tool message's originating
assistant lies in the same conversation turn), every tool message retained
by the trim has an assistant message with the same `call_id` also retained;
moreover the output is either the unchanged input or the system turns
followed by a whole-turn suffix of the conversation turns (so a retained
user message's whole turn, including its following assistant message, is
retained with it). -/
theorem trimContext_turns_atomic (maxMessages : Nat) (messages : List Msg)
    (hwf : wellFormedTurns messages = true) :
    (∀ cid ct, Msg.tool cid ct ∈ trimContext maxMessages messages →
        ∃ m ∈ trimContext maxMessages messages, isAssistantWithCall cid m = true)
    ∧ (trimContext maxMessages messages = messages ∨
        ∃ kept, kept <:+ conversationTurnsOf messages ∧
          trimContext maxMessages messages = (systemTurnsOf messages ++ kept).flatten) := by
  have hstruct := trimContext_structure maxMessages messages
  refine ⟨?_, hstruct⟩
  have hwf' : ∀ t ∈ groupTurns messages, ∀ cid ct, Msg.tool cid ct ∈ t →
      ∃ m ∈ t, isAssistantWithCall cid m = true := by
    intro t ht cid ct htool
    have h1 := (List.all_eq_true.mp hwf) t ht
    have h2 := (List.all_eq_true.mp h1) _ htool
    exact List.any_eq_true.mp h2
  intro cid ct hmem
  rcases hstruct with heq | ⟨kept, hsuf, heq⟩
  · rw [heq] at hmem ⊢
    have hmem' : Msg.tool cid ct ∈ (groupTurns messages).flatten := by
      rw [groupTurns_flatten]; exact hmem
    obtain ⟨t, ht, htool⟩ := List.mem_flatten.mp hmem'
    obtain ⟨m, hm, hma⟩ := hwf' t ht cid ct htool
    refine ⟨m, ?_, hma⟩
    rw [← groupTurns_flatten messages]
    exact List.mem_flatten.mpr ⟨t, ht, hm⟩
  · rw [heq] at hmem ⊢
    obtain ⟨t, ht, htool⟩ := List.mem_flatten.mp hmem
    rcases List.mem_append.mp ht with hts | htk
    · have hts' := List.mem_filter.mp hts
      obtain ⟨c, rfl⟩ := isSystemTurn_shape hts'.2
      simp at htool
    · have htc : t ∈ conversationTurnsOf messages := hsuf.subset htk
      have htg : t ∈ groupTurns messages := (List.mem_filter.mp htc).1
      obtain ⟨m, hm, hma⟩ := hwf' t htg cid ct htool
      exact ⟨m, List.mem_flatten.mpr ⟨t, List.mem_append.mpr (Or.inr htk), hm⟩, hma⟩

/-- Sample conversation exercising `trimContext_turns_atomic`. -/
def turnsEx : List Msg :=
  [Msg.system "sys", Msg.user "u1", Msg.assistant "a1" [1], Msg.tool 1 "r1",
   Msg.user "u2", Msg.assistant "a2" []]

/-- Witness for `trimContext_turns_atomic` at `max_messages = 4`. -/
theorem trimContext_turns_atomic_witness :
    wellFormedTurns turnsEx = true ∧
    ((∀ cid ct, Msg.tool cid ct ∈ trimContext 4 turnsEx →
        ∃ m ∈ trimContext 4 turnsEx, isAssistantWithCall cid m = true)
    ∧ (trimContext 4 turnsEx = turnsEx ∨
        ∃ kept, kept <:+ conversationTurnsOf turnsEx ∧
          trimContext 4 turnsEx = (systemTurnsOf turnsEx ++ kept).flatten)) :=
  ⟨by decide, trimContext_turns_atomic 4 turnsEx (by decide)⟩

/-- Well-formed conversation on which `ContextCompactionMiddleware` breaks a
turn: with `keep_last_turns = 1` the 6-message input exceeds `2·1 + 2 = 4`,
so it is compacted to its last two non-system messages, retaining the tool
message for call 7 while dropping the assistant message that issued call 7. -/
def compactEx : List Msg :=
  [Msg.user "u1", Msg.assistant "a1" [], Msg.user "u2",
   Msg.assistant "a2" [7], Msg.tool 7 "r", Msg.assistant "a3" []]

/-- C1 counterexample: `_compact_messages` does not keep conversation turns
atomic.  On the well-formed conversation `compactEx` with
`keep_last_turns = 1`, the output contains the tool message with call id 7
but no assistant message whose `tool_calls` contain 7. -/
theorem compactMessages_not_atomic :
    wellFormedTurns compactEx = true ∧
    Msg.tool 7 "r" ∈ compactMessages 1 compactEx ∧
    (compactMessages 1 compactEx).all (fun m => !isAssistantWithCall 7 m) = true := by
  decide

/-- C2: `_compact_messages` preserves every system message; an input of at
most `2N + 2` messages is returned unchanged; a longer input becomes all
system messages followed by the most recent `2N` non-system messages (the
suffix of length `min (2N) (#non-system)` of the non-system messages). -/
theorem compactMessages_spec (N : Nat) (hN : 1 ≤ N) (messages : List Msg) :
    (∀ m ∈ messages, isSystemMsg m = true → m ∈ compactMessages N messages)
    ∧ (messages.length ≤ 2 * N + 2 → compactMessages N messages = messages)
    ∧ (2 * N + 2 < messages.length →
        ∃ recent, recent <:+ messages.filter (fun m => !isSystemMsg m) ∧
          recent.length = min (2 * N) (messages.filter (fun m => !isSystemMsg m)).length ∧
          compactMessages N messages = messages.filter isSystemMsg ++ recent) := by
  refine ⟨?_, ?_, ?_⟩
  · intro m hm hsys
    unfold compactMessages
    split
    · exact hm
    · exact List.mem_append_left _ (List.mem_filter.mpr ⟨hm, hsys⟩)
  · intro h
    unfold compactMessages
    rw [if_pos (by omega)]
  · intro h
    refine ⟨(messages.filter (fun m => !isSystemMsg m)).drop
        ((messages.filter (fun m => !isSystemMsg m)).length - 2 * N),
      List.drop_suffix _ _, ?_, ?_⟩
    · rw [List.length_drop]
      have hle : (messages.filter (fun m => !isSystemMsg m)).length ≤ messages.length :=
        List.length_filter_le _ _
      omega
    · unfold compactMessages
      rw [if_neg (by omega)]
      simp [Nat.mul_comm]

/-- Witness for `compactMessages_spec`: `N = 1` on an 8-message conversation. -/
theorem compactMessages_spec_witness :
    (1 ≤ 1 ∧ 2 * 1 + 2 < (compactEx ++ [Msg.user "u4", Msg.assistant "a4" []]).length) ∧
    ∃ recent, recent <:+ (compactEx ++ [Msg.user "u4", Msg.assistant "a4" []]).filter (fun m => !isSystemMsg m) ∧
      recent.length = min (2 * 1) ((compactEx ++ [Msg.user "u4", Msg.assistant "a4" []]).filter (fun m => !isSystemMsg m)).length ∧
      compactMessages 1 (compactEx ++ [Msg.user "u4", Msg.assistant "a4" []]) =
        (compactEx ++ [Msg.user "u4", Msg.assistant "a4" []]).filter isSystemMsg ++ recent :=
  ⟨⟨le_refl 1, by decide⟩,
    (compactMessages_spec 1 (le_refl 1) _).2.2 (by decide)⟩

/-- C10: `divide` raises `ValueError` exactly when the denominator is zero,
and otherwise returns the quotient; no other input raises. -/
theorem divide_spec (a b : ℚ) :
    ((∃ e, divide a b = .error e) ↔ b = 0) ∧ (b ≠ 0 → divide a b = .ok (a / b)) := by
  constructor
  · constructor
    · rintro ⟨e, he⟩
      by_contra hb
      simp [divide, hb] at he
    · intro hb
      exact ⟨"Cannot divide by zero.", by simp [divide, hb]⟩
  · intro hb
    simp [divide, hb]

/-- Witness for `divide_spec`: `divide 10 2 = 5` and `divide 4 0` raises. -/
theorem divide_spec_witness :
    ((2:ℚ) ≠ 0 ∧ divide 10 2 = .ok (10 / 2)) ∧ (∃ e, divide (4:ℚ) 0 = .error e) :=
  ⟨⟨by norm_num, (divide_spec 10 2).2 (by norm_num)⟩,
    (divide_spec 4 0).1.mpr rfl⟩

/-! ## SecurityMiddleware._check_rate_limit
(src/picoagents/examples/agents/middleware_custom.py, lines 90-108)

Time is modelled in seconds as `Int`; `datetime.now() - timedelta(hours=1)`
becomes `now - 3600`.  `self.user_requests` is an association list from
user id to request timestamps. -/

/-- The requests kept by the cleanup step: `req_time > hour_ago`. -/
def recentRequests (times : List Int) (now : Int) : List Int :=
  times.filter (fun t => decide (now - 3600 < t))

/-- Assignment `self.user_requests[user_id] = v` on the dictionary. -/
def updateStore : List (String × List Int) → String → List Int → List (String × List Int)
  | [], u, v => [(u, v)]
  | (k, w) :: rest, u, v =>
    if k = u then (u, v) :: rest else (k, w) :: updateStore rest u v

/-- `_check_rate_limit(user_id)` at time `now`: clean requests older than
one hour, raise `ValueError` when the count has reached `max_requests`
(the cleaned list is still stored), otherwise record `now` and pass. -/
def checkRateLimit (maxRequests : Nat) (store : List (String × List Int))
    (userId : String) (now : Int) :
    Except String Unit × List (String × List Int) :=
  let times := (store.lookup userId).getD []
  let recent := recentRequests times now
  if maxRequests ≤ recent.length then
    (.error ("Rate limit exceeded for user " ++ userId ++ ". Try again later."),
      updateStore store userId recent)
  else
    (.ok (), updateStore store userId (recent ++ [now]))

theorem lookup_updateStore_self (store : List (String × List Int)) (u : String) (v : List Int) :
    (updateStore store u v).lookup u = some v := by
  induction store with
  | nil => simp [updateStore]
  | cons kw rest ih =>
    obtain ⟨k, w⟩ := kw
    by_cases hk : k = u
    · simp [updateStore, hk]
    · have hbeq : (u == k) = false := beq_eq_false_iff_ne.mpr (Ne.symm hk)
      simp [updateStore, hk, List.lookup, hbeq, ih]

theorem lookup_updateStore_other (store : List (String × List Int)) (u x : String)
    (v : List Int) (hx : x ≠ u) :
    (updateStore store u v).lookup x = store.lookup x := by
  have hbeq : (x == u) = false := beq_eq_false_iff_ne.mpr hx
  induction store with
  | nil => simp [updateStore, List.lookup, hbeq]
  | cons kw rest ih =>
    obtain ⟨k, w⟩ := kw
    by_cases hk : k = u
    · subst hk
      simp [updateStore, List.lookup, hbeq]
    · by_cases hxk : x = k
      · subst hxk
        simp [updateStore, hk, List.lookup]
      · have hbk : (x == k) = false := beq_eq_false_iff_ne.mpr hxk
        simp [updateStore, hk, List.lookup, hbk, ih]

/-- C3 (amended): `_check_rate_limit` uses a sliding ONE-HOUR window (the
configuration parameter is `max_requests_per_hour`).  Requests at least an
hour old are excluded from the count, requests inside the window are
counted, a request arriving when the in-window count has reached the
maximum raises `ValueError` (the middleware never blocks/waits), a request
below the maximum is recorded and passes, and other users' records are
untouched. -/
theorem checkRateLimit_spec (maxRequests : Nat) (store : List (String × List Int))
    (userId : String) (now : Int) :
    (∀ t ∈ (store.lookup userId).getD [], t ≤ now - 3600 →
        t ∉ recentRequests ((store.lookup userId).getD []) now)
    ∧ (∀ t ∈ (store.lookup userId).getD [], now - 3600 < t →
        t ∈ recentRequests ((store.lookup userId).getD []) now)
    ∧ (maxRequests ≤ (recentRequests ((store.lookup userId).getD []) now).length →
        (checkRateLimit maxRequests store userId now).1 =
          .error ("Rate limit exceeded for user " ++ userId ++ ". Try again later."))
    ∧ ((recentRequests ((store.lookup userId).getD []) now).length < maxRequests →
        (checkRateLimit maxRequests store userId now).1 = .ok () ∧
        (checkRateLimit maxRequests store userId now).2.lookup userId =
          some (recentRequests ((store.lookup userId).getD []) now ++ [now]))
    ∧ (∀ other, other ≠ userId →
        (checkRateLimit maxRequests store userId now).2.lookup other = store.lookup other) := by
  refine ⟨?_, ?_, ?_, ?_, ?_⟩
  · intro t _ hold hmem
    have h2 : now - 3600 < t := of_decide_eq_true (List.mem_filter.mp hmem).2
    omega
  · intro t hmem hin
    exact List.mem_filter.mpr ⟨hmem, by simpa using hin⟩
  · intro h
    simp only [checkRateLimit]
    rw [if_pos h]
  · intro h
    simp only [checkRateLimit]
    rw [if_neg (by omega)]
    exact ⟨rfl, lookup_updateStore_self _ _ _⟩
  · intro other hother
    simp only [checkRateLimit]
    split <;> exact lookup_updateStore_other _ _ _ _ hother

/-- Witness for `checkRateLimit_spec`: a first request by a fresh user
passes and is recorded. -/
theorem checkRateLimit_spec_witness :
    ((recentRequests ((([] : List (String × List Int)).lookup "carol").getD []) 5).length < 1)
    ∧ ((checkRateLimit 1 [] "carol" 5).1 = .ok () ∧
        (checkRateLimit 1 [] "carol" 5).2.lookup "carol" =
          some (recentRequests ((([] : List (String × List Int)).lookup "carol").getD []) 5 ++ [5])) :=
  ⟨by decide, (checkRateLimit_spec 1 [] "carol" 5).2.2.2.1 (by decide)⟩

/-- C3 counterexample: the window is one hour, not one minute.  With a
maximum of 2 and two prior requests at time 0, a request at time 120 — both
prior requests being more than a minute (60 s) old — is still rejected,
whereas under a one-minute sliding window the old requests would be
excluded from the count and the request would pass. -/
theorem checkRateLimit_not_minute_window :
    (∀ t ∈ ([0, 0] : List Int), t ≤ 120 - 60) ∧
    (checkRateLimit 2 [("alice", [0, 0])] "alice" 120).1 =
      .error "Rate limit exceeded for user alice. Try again later." := by
  exact ⟨by decide, rfl⟩

/-! ## TokenTrackingMiddleware
(src/examples/contextengineering/token_tracking.py, lines 20-103)

A `process_response` call is modelled by the usage it observes:
`none` when the result carries no usage, `some (tokens_input,
tokens_output)` otherwise.  Snapshot fields `agent_name`, `timestamp` and
`message_count` play no role in the claim and are omitted. -/

structure TokenSnapshot where
  operation : Nat
  tokensInput : Nat
  tokensOutput : Nat
  totalTokens : Nat
  cumulativeInput : Nat
  cumulativeOutput : Nat
  cumulativeTotal : Nat
  deriving Repr, DecidableEq

structure TokenTracker where
  tokenHistory : List TokenSnapshot
  cumulativeInput : Nat
  cumulativeOutput : Nat
  operationCount : Nat
  deriving Repr, DecidableEq

def TokenTracker.init : TokenTracker := ⟨[], 0, 0, 0⟩

/-- `TokenTrackingMiddleware.process_response`: extract the usage (0 when
absent), bump the cumulative counters and the operation count, and append a
snapshot recording the cumulative totals at this moment. -/
def processResponse (st : TokenTracker) (usage : Option (Nat × Nat)) : TokenTracker :=
  let tokensIn := (usage.getD (0, 0)).1
  let tokensOut := (usage.getD (0, 0)).2
  let ci := st.cumulativeInput + tokensIn
  let co := st.cumulativeOutput + tokensOut
  let oc := st.operationCount + 1
  { tokenHistory :=
      st.tokenHistory ++ [⟨oc, tokensIn, tokensOut, tokensIn + tokensOut, ci, co, ci + co⟩],
    cumulativeInput := ci,
    cumulativeOutput := co,
    operationCount := oc }

def runTracker (events : List (Option (Nat × Nat))) : TokenTracker :=
  events.foldl processResponse .init

/-- Invariant carried through every `process_response` call. -/
def trackerInv (st : TokenTracker) : Prop :=
  ((st.tokenHistory.map TokenSnapshot.cumulativeTotal).Pairwise (· ≤ ·))
  ∧ (∀ s ∈ st.tokenHistory, s.cumulativeTotal ≤ st.cumulativeInput + st.cumulativeOutput)
  ∧ (∀ s ∈ st.tokenHistory, s.cumulativeTotal = s.cumulativeInput + s.cumulativeOutput)

theorem trackerInv_init : trackerInv TokenTracker.init := by
  refine ⟨by simp [TokenTracker.init], by simp [TokenTracker.init], by simp [TokenTracker.init]⟩

theorem trackerInv_step (st : TokenTracker) (usage : Option (Nat × Nat))
    (h : trackerInv st) : trackerInv (processResponse st usage) := by
  obtain ⟨hpw, hle, heq⟩ := h
  refine ⟨?_, ?_, ?_⟩
  · simp only [processResponse, List.map_append, List.map_cons, List.map_nil]
    rw [List.pairwise_append]
    refine ⟨hpw, by simp, ?_⟩
    intro a ha b hb
    simp only [List.mem_map] at ha
    obtain ⟨s, hs, rfl⟩ := ha
    simp only [List.mem_singleton] at hb
    subst hb
    have := hle s hs
    simp
    omega
  · intro s hs
    simp only [processResponse, List.mem_append, List.mem_singleton] at hs
    rcases hs with hs | rfl
    · have := hle s hs
      simp only [processResponse]
      omega
    · simp [processResponse]
  · intro s hs
    simp only [processResponse, List.mem_append, List.mem_singleton] at hs
    rcases hs with hs | rfl
    · exact heq s hs
    · rfl

theorem trackerInv_fold (events : List (Option (Nat × Nat))) :
    ∀ st, trackerInv st → trackerInv (events.foldl processResponse st) := by
  induction events with
  | nil => intro st h; exact h
  | cons e rest ih =>
    intro st h
    exact ih _ (trackerInv_step st e h)

theorem counters_mono_fold (events : List (Option (Nat × Nat))) :
    ∀ st : TokenTracker,
      st.cumulativeInput ≤ (events.foldl processResponse st).cumulativeInput
      ∧ st.cumulativeOutput ≤ (events.foldl processResponse st).cumulativeOutput
      ∧ st.operationCount ≤ (events.foldl processResponse st).operationCount := by
  induction events with
  | nil => intro st; exact ⟨le_refl _, le_refl _, le_refl _⟩
  | cons e rest ih =>
    intro st
    obtain ⟨h1, h2, h3⟩ := ih (processResponse st e)
    refine ⟨le_trans ?_ h1, le_trans ?_ h2, le_trans ?_ h3⟩ <;>
      simp [processResponse]

/-- C5: usage counters of `TokenTrackingMiddleware` are monotonically
non-decreasing — extending any sequence of `process_response` calls never
decreases `cumulative_input`, `cumulative_output` or `operation_count`;
the `cumulative_total` values of successive `token_history` snapshots are
non-decreasing; and every snapshot's `cumulative_total` equals its recorded
`cumulative_input + cumulative_output`. -/
theorem tokenTracker_monotone (events more : List (Option (Nat × Nat))) :
    ((runTracker events).cumulativeInput ≤ (runTracker (events ++ more)).cumulativeInput
      ∧ (runTracker events).cumulativeOutput ≤ (runTracker (events ++ more)).cumulativeOutput
      ∧ (runTracker events).operationCount ≤ (runTracker (events ++ more)).operationCount)
    ∧ ((runTracker events).tokenHistory.map TokenSnapshot.cumulativeTotal).Pairwise (· ≤ ·)
    ∧ (∀ s ∈ (runTracker events).tokenHistory,
        s.cumulativeTotal = s.cumulativeInput + s.cumulativeOutput) := by
  have hinv := trackerInv_fold events TokenTracker.init trackerInv_init
  refine ⟨?_, hinv.1, hinv.2.2⟩
  simp only [runTracker, List.foldl_append]
  exact counters_mono_fold more (events.foldl processResponse .init)

/-! ## AgentContext approval state

Modelled from the spec: the `AgentContext` approval state
(`picoagents.context`) is not part of the repository sources, only its test
`src/examples/tools/test_approval_basic.py` is.  Per the spec (§3):
pending approval requests are a sequence of
`ToolApprovalRequest {request_id, call_id, tool_name, parameters}`,
approval responses map `request_id → approved`, and `waiting_for_approval`
is DERIVED: a pending request with no response exists. -/

structure ToolApprovalRequest where
  requestId : Nat
  callId : String
  toolName : String
  parameters : List (String × String)
  deriving DecidableEq, Repr

structure ToolApprovalResponse where
  requestId : Nat
  approved : Bool
  deriving DecidableEq, Repr

structure ApprovalState where
  pendingApprovalRequests : List ToolApprovalRequest
  approvalResponses : List ToolApprovalResponse
  deriving DecidableEq, Repr

/-- Modelled from the spec: `context.add_approval_request(...)` records a
pending request. -/
def addApprovalRequest (st : ApprovalState) (req : ToolApprovalRequest) : ApprovalState :=
  { st with pendingApprovalRequests := st.pendingApprovalRequests ++ [req] }

/-- Modelled from the spec: `context.add_approval_response(...)` records a
response (approved or rejected). -/
def addApprovalResponse (st : ApprovalState) (resp : ToolApprovalResponse) : ApprovalState :=
  { st with approvalResponses := st.approvalResponses ++ [resp] }

/-- The request `rid` has received some response (approved or rejected). -/
def hasApprovalResponse (st : ApprovalState) (rid : Nat) : Bool :=
  st.approvalResponses.any (fun r => r.requestId == rid)

/-- Modelled from the spec: `waiting_for_approval` is derived — some
pending request has no matching response. -/
def waitingForApproval (st : ApprovalState) : Bool :=
  st.pendingApprovalRequests.any (fun r => !hasApprovalResponse st r.requestId)

inductive ApprovalOp where
  | request (req : ToolApprovalRequest)
  | response (resp : ToolApprovalResponse)
  deriving DecidableEq, Repr

def applyApprovalOp (st : ApprovalState) : ApprovalOp → ApprovalState
  | .request req => addApprovalRequest st req
  | .response resp => addApprovalResponse st resp

def runApprovalOps (ops : List ApprovalOp) : ApprovalState :=
  ops.foldl applyApprovalOp ⟨[], []⟩

/-- C6 (spec-modelled): after any interleaving of `add_approval_request`
and `add_approval_response` operations, `waiting_for_approval` is true iff
some pending request has no matching response; it becomes true after adding
a request whose id has no response, and it is false once every pending
request has received a response (whether approved or rejected). -/
theorem waitingForApproval_spec (ops : List ApprovalOp) :
    (waitingForApproval (runApprovalOps ops) = true ↔
      ∃ r ∈ (runApprovalOps ops).pendingApprovalRequests,
        hasApprovalResponse (runApprovalOps ops) r.requestId = false)
    ∧ (∀ req, hasApprovalResponse (runApprovalOps ops) req.requestId = false →
        waitingForApproval (addApprovalRequest (runApprovalOps ops) req) = true)
    ∧ ((∀ r ∈ (runApprovalOps ops).pendingApprovalRequests,
          hasApprovalResponse (runApprovalOps ops) r.requestId = true) →
        waitingForApproval (runApprovalOps ops) = false) := by
  refine ⟨?_, ?_, ?_⟩
  · simp [waitingForApproval, List.any_eq_true]
  · intro req hreq
    have hresp : hasApprovalResponse (addApprovalRequest (runApprovalOps ops) req) req.requestId
        = false := hreq
    simp only [waitingForApproval, addApprovalRequest, List.any_append, List.any_cons,
      List.any_nil, Bool.or_eq_true]
    right
    simp [hresp]
    exact hreq
  · intro hall
    cases hw : waitingForApproval (runApprovalOps ops) with
    | false => rfl
    | true =>
      exfalso
      simp only [waitingForApproval, List.any_eq_true] at hw
      obtain ⟨r, hr, hnone⟩ := hw
      have := hall r hr
      simp [this] at hnone

/-- Operation sequence of `test_multiple_approvals`: three approval
requests, then two approvals and one rejection. -/
def approvalOpsEx : List ApprovalOp :=
  [.request ⟨1, "call_1", "tool_1", [("x", "1")]⟩,
   .request ⟨2, "call_2", "tool_2", [("x", "2")]⟩,
   .request ⟨3, "call_3", "tool_3", [("x", "3")]⟩,
   .response ⟨1, true⟩, .response ⟨2, true⟩, .response ⟨3, false⟩]

/-- Witness for `waitingForApproval_spec`: once all three requests are
answered (two approved, one rejected), `waiting_for_approval` is false. -/
theorem waitingForApproval_spec_witness :
    (∀ r ∈ (runApprovalOps approvalOpsEx).pendingApprovalRequests,
        hasApprovalResponse (runApprovalOps approvalOpsEx) r.requestId = true)
    ∧ waitingForApproval (runApprovalOps approvalOpsEx) = false :=
  ⟨by decide, (waitingForApproval_spec approvalOpsEx).2.2 (by decide)⟩

/-! ## RoundRobinOrchestrator

Modelled from the spec: `picoagents.orchestration.RoundRobinOrchestrator`
is not part of the repository sources (only the examples that construct it
are).  Per the spec (§4.5): the shared loop seeds a message buffer with the
user task, repeats up to `max_iterations` asking the selection policy for
the next agent (round-robin: cycling through the agent list starting from
index 0), runs that agent for one turn appending its produced messages, and
stops when the termination condition — here `MaxMessages(n)`, which stops
once the buffer holds at least `n` messages — fires against the shared
buffer.  An agent's turn is abstracted by `produce agent turnIndex`. -/

structure OMsg where
  source : String
  content : String
  deriving DecidableEq, Repr

/-- Modelled from the spec: `MaxMessages(n).evaluate(messages)`. -/
def maxMessagesShouldStop (maxMessages : Nat) (messages : List OMsg) : Bool :=
  maxMessages ≤ messages.length

/-- Modelled from the spec: the shared orchestration loop with round-robin
selection.  `iters` is the remaining iteration budget, `idx` the current
turn index. -/
def roundRobinLoop (agents : List String) (produce : String → Nat → List OMsg)
    (maxMessages : Nat) : Nat → Nat → List OMsg → List OMsg
  | 0, _, buffer => buffer
  | iters + 1, idx, buffer =>
    if agents.isEmpty then buffer
    else
      if maxMessagesShouldStop maxMessages
          (buffer ++ produce ((agents[idx % agents.length]?).getD "") idx) then
        buffer ++ produce ((agents[idx % agents.length]?).getD "") idx
      else
        roundRobinLoop agents produce maxMessages iters (idx + 1)
          (buffer ++ produce ((agents[idx % agents.length]?).getD "") idx)

def runRoundRobin (agents : List String) (produce : String → Nat → List OMsg)
    (maxMessages maxIterations : Nat) (task : OMsg) : List OMsg :=
  roundRobinLoop agents produce maxMessages maxIterations 0 [task]

theorem roundRobinLoop_append (agents : List String) (produce : String → Nat → List OMsg)
    (n : Nat) :
    ∀ (iters idx : Nat) (buffer : List OMsg),
      ∃ rest, roundRobinLoop agents produce n iters idx buffer = buffer ++ rest
  | 0, idx, buffer => ⟨[], by simp [roundRobinLoop]⟩
  | iters + 1, idx, buffer => by
    rw [roundRobinLoop]
    split
    · exact ⟨[], by simp⟩
    · split
      · exact ⟨_, rfl⟩
      · obtain ⟨rest, hr⟩ :=
          roundRobinLoop_append agents produce n iters (idx + 1)
            (buffer ++ produce ((agents[idx % agents.length]?).getD "") idx)
        rw [hr, List.append_assoc]
        exact ⟨_, rfl⟩

theorem roundRobinLoop_sources (agents : List String) (produce : String → Nat → List OMsg)
    (hp : ∀ g i, ∃ c, produce g i = [⟨g, c⟩]) (n : Nat) :
    ∀ (iters idx : Nat) (buffer : List OMsg) (k : Nat) (m : OMsg),
      ((roundRobinLoop agents produce n iters idx buffer).drop buffer.length)[k]? = some m →
      agents[(idx + k) % agents.length]? = some m.source
  | 0, idx, buffer, k, m => by
    intro h
    simp [roundRobinLoop] at h
  | iters + 1, idx, buffer, k, m => by
    intro h
    rw [roundRobinLoop] at h
    by_cases hemp : agents.isEmpty
    · rw [if_pos hemp] at h
      simp at h
    · rw [if_neg hemp] at h
      have hlen : 0 < agents.length := by
        cases agents with
        | nil => simp at hemp
        | cons a rest => simp
      obtain ⟨a, ha⟩ : ∃ a, agents[idx % agents.length]? = some a := by
        cases hA : agents[idx % agents.length]? with
        | some a => exact ⟨a, rfl⟩
        | none =>
          rw [List.getElem?_eq_none_iff] at hA
          exact absurd (Nat.mod_lt idx hlen) (by omega)
      obtain ⟨c, hc⟩ := hp ((agents[idx % agents.length]?).getD "") idx
      rw [hc] at h
      by_cases hstop :
          maxMessagesShouldStop n
            (buffer ++ [(⟨(agents[idx % agents.length]?).getD "", c⟩ : OMsg)]) = true
      · rw [if_pos hstop, List.drop_left] at h
        cases k with
        | zero =>
          have hm : (⟨(agents[idx % agents.length]?).getD "", c⟩ : OMsg) = m := by
            simpa using h
          rw [Nat.add_zero, ha, ← hm]
          simp [ha]
        | succ k => simp at h
      · rw [if_neg hstop] at h
        obtain ⟨rest, hr⟩ :=
          roundRobinLoop_append agents produce n iters (idx + 1)
            (buffer ++ [(⟨(agents[idx % agents.length]?).getD "", c⟩ : OMsg)])
        rw [hr, List.append_assoc, List.drop_left] at h
        cases k with
        | zero =>
          have hm : (⟨(agents[idx % agents.length]?).getD "", c⟩ : OMsg) = m := by
            simpa using h
          rw [Nat.add_zero, ha, ← hm]
          simp [ha]
        | succ k =>
          have hk : rest[k]? = some m := by simpa using h
          have hrec := roundRobinLoop_sources agents produce hp n iters (idx + 1)
            (buffer ++ [(⟨(agents[idx % agents.length]?).getD "", c⟩ : OMsg)]) k m
            (by rw [hr, List.drop_left]; exact hk)
          rw [show idx + (k + 1) = idx + 1 + k by omega]
          exact hrec

/-- C9 (amended, spec-modelled): round-robin selection cycles
deterministically through the agent list starting from index 0 — the k-th
produced message comes from `agents[k % len]`.  With agents `[a, b, c]`,
because the seeded user task counts toward `MaxMessages`, termination
`MaxMessages(6)` stops the run after FIVE produced messages, with sources
`a, b, c, a, b`; the full cyclic pattern `a, b, c, a, b, c` is produced
with `MaxMessages(7)`. -/
theorem roundRobin_cyclic (agents : List String) (produce : String → Nat → List OMsg)
    (hp : ∀ g i, ∃ c, produce g i = [⟨g, c⟩]) (n maxIter : Nat) (task : OMsg) :
    (∀ k m, ((runRoundRobin agents produce n maxIter task).drop 1)[k]? = some m →
        agents[k % agents.length]? = some m.source)
    ∧ (∀ a b c : String, agents = [a, b, c] → n = 6 → 5 ≤ maxIter →
        (runRoundRobin agents produce n maxIter task).map OMsg.source =
          [task.source, a, b, c, a, b])
    ∧ (∀ a b c : String, agents = [a, b, c] → n = 7 → 6 ≤ maxIter →
        (runRoundRobin agents produce n maxIter task).map OMsg.source =
          [task.source, a, b, c, a, b, c]) := by
  refine ⟨?_, ?_, ?_⟩
  · intro k m h
    have := roundRobinLoop_sources agents produce hp n maxIter 0 [task] k m (by simpa using h)
    simpa using this
  · rintro a b c rfl rfl h5
    obtain ⟨mm, rfl⟩ := Nat.le.dest h5
    obtain ⟨c0, hc0⟩ := hp a 0
    obtain ⟨c1, hc1⟩ := hp b 1
    obtain ⟨c2, hc2⟩ := hp c 2
    obtain ⟨c3, hc3⟩ := hp a 3
    obtain ⟨c4, hc4⟩ := hp b 4
    rw [show 5 + mm = mm + 1 + 1 + 1 + 1 + 1 by omega]
    simp [runRoundRobin, roundRobinLoop, maxMessagesShouldStop, hc0, hc1, hc2, hc3, hc4]
  · rintro a b c rfl rfl h6
    obtain ⟨mm, rfl⟩ := Nat.le.dest h6
    obtain ⟨c0, hc0⟩ := hp a 0
    obtain ⟨c1, hc1⟩ := hp b 1
    obtain ⟨c2, hc2⟩ := hp c 2
    obtain ⟨c3, hc3⟩ := hp a 3
    obtain ⟨c4, hc4⟩ := hp b 4
    obtain ⟨c5, hc5⟩ := hp c 5
    rw [show 6 + mm = mm + 1 + 1 + 1 + 1 + 1 + 1 by omega]
    simp [runRoundRobin, roundRobinLoop, maxMessagesShouldStop, hc0, hc1, hc2, hc3, hc4, hc5]

/-- A concrete one-message-per-turn agent behaviour. -/
def produceOne (g : String) (_i : Nat) : List OMsg := [⟨g, "m"⟩]

/-- C9 counterexample (spec-modelled): with agents `[a, b, c]` and
`MaxMessages(6)`, the produced messages have sources `a, b, c, a, b` —
not the claimed `a, b, c, a, b, c` — because the seeded user task counts
toward the 6-message limit. -/
theorem roundRobin_maxMessages6_pattern :
    ((runRoundRobin ["a", "b", "c"] produceOne 6 10 ⟨"user", "task"⟩).drop 1).map OMsg.source
        = ["a", "b", "c", "a", "b"]
    ∧ ((runRoundRobin ["a", "b", "c"] produceOne 6 10 ⟨"user", "task"⟩).drop 1).map OMsg.source
        ≠ ["a", "b", "c", "a", "b", "c"] := by
  exact ⟨rfl, by decide⟩

/-- Witness for `roundRobin_cyclic` at the concrete behaviour `produceOne`. -/
theorem roundRobin_cyclic_witness :
    (∀ g i, ∃ c, produceOne g i = [⟨g, c⟩])
    ∧ (runRoundRobin ["a", "b", "c"] produceOne 6 10 ⟨"user", "task"⟩).map OMsg.source =
        ["user", "a", "b", "c", "a", "b"] :=
  ⟨fun g i => ⟨"m", rfl⟩,
    (roundRobin_cyclic ["a", "b", "c"] produceOne (fun g i => ⟨"m", rfl⟩) 6 10
        ⟨"user", "task"⟩).2.1 "a" "b" "c" rfl rfl (by omega)⟩

/-! ## Component serialization

Modelled from the spec: the `dump_component` / `load_component`
implementation (`picoagents._component_config`) is not part of the
repository sources; only `05_component_serialization.py`, which exercises
it, is.  Per the spec (§4.8): every framework component exposes
`dump_component() → ComponentModel {provider, config, version}` and
`load_component(model) → instance`; config values are JSON-representable;
nested components are serialized as nested `ComponentModel` values; and
components holding opaque callables refuse serialization with
`NotImplementedError`.  The component universe covers the kinds the claim
names (model client, memories, termination conditions incl. nested
composites, agents, orchestrators) plus the callable-backed
`FunctionTool`; an opaque callable is represented by the `functionTool`
constructor.  An agent's optional memory is serialized as a zero- or
one-element array of nested models. -/

inductive Json where
  | null
  | bool (b : Bool)
  | num (n : Int)
  | str (s : String)
  | arr (items : List Json)
  | obj (fields : List (String × Json))

structure ComponentModel where
  provider : String
  config : Json
  version : Nat

inductive Component where
  | openAIClient (model apiKey : String)
  | listMemory (maxMemories : Nat)
  | fileMemory (filePath : String) (maxMemories : Nat)
  | maxMessageTermination (maxMessages : Nat)
  | textMentionTermination (text : String) (caseSensitive : Bool)
  | compositeTermination (conditions : List Component) (modeAny : Bool)
  | functionTool (name : String)
  | agent (name description instructions : String) (modelClient : Component)
      (memory : Option Component) (maxIterations : Nat) (tools : List Component)
  | roundRobinOrchestrator (agents : List Component) (termination : Component)
      (maxIterations : Nat)

mutual
/-- The component holds an opaque callable (a function-backed tool)
somewhere in its configuration. -/
def hasCallable : Component → Bool
  | .openAIClient _ _ => false
  | .listMemory _ => false
  | .fileMemory _ _ => false
  | .maxMessageTermination _ => false
  | .textMentionTermination _ _ => false
  | .compositeTermination conditions _ => hasCallableList conditions
  | .functionTool _ => true
  | .agent _ _ _ modelClient memory _ tools =>
      hasCallable modelClient || hasCallableOpt memory || hasCallableList tools
  | .roundRobinOrchestrator agents termination _ =>
      hasCallableList agents || hasCallable termination

def hasCallableList : List Component → Bool
  | [] => false
  | c :: cs => hasCallable c || hasCallableList cs

def hasCallableOpt : Option Component → Bool
  | none => false
  | some c => hasCallable c
end

/-- The `NotImplementedError` raised by `FunctionTool.dump_component`. -/
def notImplementedMsg : String :=
  "NotImplementedError: FunctionTool cannot be serialized (wraps an opaque callable)"

def modelToJson (m : ComponentModel) : Json :=
  .obj [("provider", .str m.provider), ("config", m.config), ("version", .num m.version)]

mutual
/-- Modelled from the spec: `dump_component`.  Nested components are
dumped recursively and embedded as nested `ComponentModel` JSON values;
a `FunctionTool` raises `NotImplementedError`. -/
def dumpComponent : Component → Except String ComponentModel
  | .openAIClient model apiKey =>
      .ok ⟨"OpenAIChatCompletionClient",
        .obj [("model", .str model), ("api_key", .str apiKey)], 1⟩
  | .listMemory maxMemories =>
      .ok ⟨"ListMemory", .obj [("max_memories", .num maxMemories)], 1⟩
  | .fileMemory filePath maxMemories =>
      .ok ⟨"FileMemory",
        .obj [("file_path", .str filePath), ("max_memories", .num maxMemories)], 1⟩
  | .maxMessageTermination maxMessages =>
      .ok ⟨"MaxMessageTermination", .obj [("max_messages", .num maxMessages)], 1⟩
  | .textMentionTermination text caseSensitive =>
      .ok ⟨"TextMentionTermination",
        .obj [("text", .str text), ("case_sensitive", .bool caseSensitive)], 1⟩
  | .compositeTermination conditions modeAny => do
      let ms ← dumpList conditions
      .ok ⟨"CompositeTermination",
        .obj [("conditions", .arr (ms.map modelToJson)),
              ("mode", .str (if modeAny then "any" else "all"))], 1⟩
  | .functionTool _ => .error notImplementedMsg
  | .agent name description instructions modelClient memory maxIterations tools => do
      let mc ← dumpComponent modelClient
      let mems ← dumpMem memory
      let ts ← dumpList tools
      .ok ⟨"Agent",
        .obj [("name", .str name), ("description", .str description),
              ("instructions", .str instructions), ("model_client", modelToJson mc),
              ("memory", .arr (mems.map modelToJson)),
              ("max_iterations", .num maxIterations),
              ("tools", .arr (ts.map modelToJson))], 1⟩
  | .roundRobinOrchestrator agents termination maxIterations => do
      let ags ← dumpList agents
      let t ← dumpComponent termination
      .ok ⟨"RoundRobinOrchestrator",
        .obj [("agents", .arr (ags.map modelToJson)), ("termination", modelToJson t),
              ("max_iterations", .num maxIterations)], 1⟩

def dumpList : List Component → Except String (List ComponentModel)
  | [] => .ok []
  | c :: cs => do
      let m ← dumpComponent c
      let ms ← dumpList cs
      .ok (m :: ms)

def dumpMem : Option Component → Except String (List ComponentModel)
  | none => .ok []
  | some c => do
      let m ← dumpComponent c
      .ok [m]
end

/-- Parser for the providers whose configs hold no nested component. -/
def loadFlat (p : String) (cfg : Json) : Except String Component :=
  if p = "OpenAIChatCompletionClient" then
    match cfg with
    | .obj [("model", .str model), ("api_key", .str apiKey)] =>
        .ok (.openAIClient model apiKey)
    | _ => .error "invalid config"
  else if p = "ListMemory" then
    match cfg with
    | .obj [("max_memories", .num n)] => .ok (.listMemory n.toNat)
    | _ => .error "invalid config"
  else if p = "FileMemory" then
    match cfg with
    | .obj [("file_path", .str fp), ("max_memories", .num n)] => .ok (.fileMemory fp n.toNat)
    | _ => .error "invalid config"
  else if p = "MaxMessageTermination" then
    match cfg with
    | .obj [("max_messages", .num n)] => .ok (.maxMessageTermination n.toNat)
    | _ => .error "invalid config"
  else if p = "TextMentionTermination" then
    match cfg with
    | .obj [("text", .str t), ("case_sensitive", .bool cs)] =>
        .ok (.textMentionTermination t cs)
    | _ => .error "invalid config"
  else .error "unknown provider"

mutual
/-- Modelled from the spec: `load_component` on the JSON form of a
`ComponentModel`, dispatching on the provider and validating the config
shape. -/
def loadFromModelJson : Json → Except String Component
  | .obj [("provider", .str p), ("config", cfg), ("version", .num _)] =>
      if p = "CompositeTermination" then loadComposite cfg
      else if p = "Agent" then loadAgent cfg
      else if p = "RoundRobinOrchestrator" then loadOrchestrator cfg
      else loadFlat p cfg
  | _ => .error "invalid component model"

def loadComposite : Json → Except String Component
  | .obj [("conditions", .arr js), ("mode", .str mode)] => do
      let cs ← loadModelList js
      .ok (.compositeTermination cs (mode == "any"))
  | _ => .error "invalid config"

def loadAgent : Json → Except String Component
  | .obj [("name", .str name), ("description", .str d), ("instructions", .str i),
      ("model_client", mc), ("memory", .arr mems), ("max_iterations", .num n),
      ("tools", .arr ts)] => do
      let c ← loadFromModelJson mc
      let ms ← loadModelList mems
      let tools ← loadModelList ts
      .ok (.agent name d i c ms.head? n.toNat tools)
  | _ => .error "invalid config"

def loadOrchestrator : Json → Except String Component
  | .obj [("agents", .arr ags), ("termination", t), ("max_iterations", .num n)] => do
      let as2 ← loadModelList ags
      let tc ← loadFromModelJson t
      .ok (.roundRobinOrchestrator as2 tc n.toNat)
  | _ => .error "invalid config"

def loadModelList : List Json → Except String (List Component)
  | [] => .ok []
  | j :: js => do
      let c ← loadFromModelJson j
      let cs ← loadModelList js
      .ok (c :: cs)
end

def loadComponent (m : ComponentModel) : Except String Component :=
  if m.provider = "CompositeTermination" then loadComposite m.config
  else if m.provider = "Agent" then loadAgent m.config
  else if m.provider = "RoundRobinOrchestrator" then loadOrchestrator m.config
  else loadFlat m.provider m.config

theorem loadFromModelJson_modelToJson (m : ComponentModel) :
    loadFromModelJson (modelToJson m) = loadComponent m := rfl

theorem exceptBind_ok {ε α β : Type} (a : α) (f : α → Except ε β) :
    (Except.ok (ε := ε) a >>= f) = f a := rfl

theorem loadComponent_composite (cfg : Json) (v : Nat) :
    loadComponent ⟨"CompositeTermination", cfg, v⟩ = loadComposite cfg := rfl

theorem loadComponent_agent (cfg : Json) (v : Nat) :
    loadComponent ⟨"Agent", cfg, v⟩ = loadAgent cfg := rfl

theorem loadComponent_orchestrator (cfg : Json) (v : Nat) :
    loadComponent ⟨"RoundRobinOrchestrator", cfg, v⟩ = loadOrchestrator cfg := rfl

mutual
theorem dump_load_component : ∀ (x : Component), hasCallable x = false →
    ∃ m, dumpComponent x = .ok m ∧ loadComponent m = .ok x
  | .openAIClient model apiKey, _ => ⟨_, rfl, rfl⟩
  | .listMemory mm, _ => ⟨_, rfl, rfl⟩
  | .fileMemory fp mm, _ => ⟨_, rfl, rfl⟩
  | .maxMessageTermination n, _ => ⟨_, rfl, rfl⟩
  | .textMentionTermination t cs, _ => ⟨_, rfl, rfl⟩
  | .functionTool nm, h => by simp [hasCallable] at h
  | .compositeTermination conditions modeAny, h => by
      have hc : hasCallableList conditions = false := by
        simpa [hasCallable] using h
      obtain ⟨ms, hd, hl⟩ := dump_load_list conditions hc
      refine ⟨⟨"CompositeTermination",
        .obj [("conditions", .arr (ms.map modelToJson)),
              ("mode", .str (if modeAny then "any" else "all"))], 1⟩, ?_, ?_⟩
      · simp [dumpComponent, hd, exceptBind_ok]
      · cases modeAny <;>
          simp [loadComponent_composite, loadComposite, hl, exceptBind_ok]
  | .agent name d i mc mem n tools, h => by
      rw [hasCallable, Bool.or_eq_false_iff, Bool.or_eq_false_iff] at h
      obtain ⟨⟨hmc, hmem⟩, htools⟩ := h
      obtain ⟨mm, hdm, hlm⟩ := dump_load_component mc hmc
      obtain ⟨ts, hdt, hlt⟩ := dump_load_list tools htools
      cases mem with
      | none =>
        refine ⟨⟨"Agent", .obj [("name", .str name), ("description", .str d),
            ("instructions", .str i), ("model_client", modelToJson mm),
            ("memory", .arr []), ("max_iterations", .num n),
            ("tools", .arr (ts.map modelToJson))], 1⟩, ?_, ?_⟩
        · simp [dumpComponent, hdm, hdt, dumpMem, exceptBind_ok]
        · simp [loadComponent_agent, loadAgent, loadModelList,
            loadFromModelJson_modelToJson, hlm, hlt, exceptBind_ok]
      | some memc =>
        have hmemc : hasCallable memc = false := by simpa [hasCallableOpt] using hmem
        obtain ⟨mmem, hdmem, hlmem⟩ := dump_load_component memc hmemc
        refine ⟨⟨"Agent", .obj [("name", .str name), ("description", .str d),
            ("instructions", .str i), ("model_client", modelToJson mm),
            ("memory", .arr [modelToJson mmem]), ("max_iterations", .num n),
            ("tools", .arr (ts.map modelToJson))], 1⟩, ?_, ?_⟩
        · simp [dumpComponent, hdm, hdt, dumpMem, hdmem, exceptBind_ok]
        · simp [loadComponent_agent, loadAgent, loadModelList,
            loadFromModelJson_modelToJson, hlm, hlt, hlmem, exceptBind_ok]
  | .roundRobinOrchestrator agents termination n, h => by
      rw [hasCallable, Bool.or_eq_false_iff] at h
      obtain ⟨hags, hterm⟩ := h
      obtain ⟨ams, hda, hla⟩ := dump_load_list agents hags
      obtain ⟨tm, hdt, hlt⟩ := dump_load_component termination hterm
      refine ⟨⟨"RoundRobinOrchestrator",
        .obj [("agents", .arr (ams.map modelToJson)), ("termination", modelToJson tm),
              ("max_iterations", .num n)], 1⟩, ?_, ?_⟩
      · simp [dumpComponent, hda, hdt, exceptBind_ok]
      · simp [loadComponent_orchestrator, loadOrchestrator,
          loadFromModelJson_modelToJson, hla, hlt, exceptBind_ok]

theorem dump_load_list : ∀ (xs : List Component), hasCallableList xs = false →
    ∃ ms, dumpList xs = .ok ms ∧ loadModelList (ms.map modelToJson) = .ok xs
  | [], _ => ⟨[], rfl, rfl⟩
  | c :: cs, h => by
      rw [hasCallableList, Bool.or_eq_false_iff] at h
      obtain ⟨hc, hcs⟩ := h
      obtain ⟨m, hd, hl⟩ := dump_load_component c hc
      obtain ⟨ms, hds, hls⟩ := dump_load_list cs hcs
      refine ⟨m :: ms, ?_, ?_⟩
      · simp [dumpList, hd, hds, exceptBind_ok]
      · simp [loadModelList, loadFromModelJson_modelToJson, hl, hls, exceptBind_ok]
end

theorem exceptBind_error {ε α β : Type} (e : ε) (f : α → Except ε β) :
    (Except.error (α := α) e >>= f) = .error e := rfl

mutual
theorem dump_callable_error : ∀ (x : Component), hasCallable x = true →
    dumpComponent x = .error notImplementedMsg
  | .openAIClient model apiKey, h => by simp [hasCallable] at h
  | .listMemory mm, h => by simp [hasCallable] at h
  | .fileMemory fp mm, h => by simp [hasCallable] at h
  | .maxMessageTermination n, h => by simp [hasCallable] at h
  | .textMentionTermination t cs, h => by simp [hasCallable] at h
  | .functionTool nm, _ => rfl
  | .compositeTermination conditions modeAny, h => by
      have hc : hasCallableList conditions = true := by simpa [hasCallable] using h
      simp [dumpComponent, dump_callable_error_list conditions hc, exceptBind_error]
  | .agent name d i mc mem n tools, h => by
      by_cases hmc : hasCallable mc = true
      · simp [dumpComponent, dump_callable_error mc hmc, exceptBind_error]
      · have hmc' : hasCallable mc = false := by simpa using hmc
        obtain ⟨mm, hdm, _⟩ := dump_load_component mc hmc'
        by_cases hmem : hasCallableOpt mem = true
        · cases mem with
          | none => simp [hasCallableOpt] at hmem
          | some memc =>
            have hmemc : hasCallable memc = true := by simpa [hasCallableOpt] using hmem
            simp [dumpComponent, hdm, dumpMem, dump_callable_error memc hmemc,
              exceptBind_ok, exceptBind_error]
        · have htools : hasCallableList tools = true := by
            rw [hasCallable] at h
            rcases Bool.or_eq_true_iff.mp h with h' | h'
            · rcases Bool.or_eq_true_iff.mp h' with h'' | h''
              · exact absurd h'' hmc
              · exact absurd h'' hmem
            · exact h'
          have hmemok : ∃ ms, dumpMem mem = .ok ms := by
            cases mem with
            | none => exact ⟨[], rfl⟩
            | some memc =>
              have hmemc : hasCallable memc = false := by simpa [hasCallableOpt] using hmem
              obtain ⟨m2, hd2, _⟩ := dump_load_component memc hmemc
              exact ⟨[m2], by simp [dumpMem, hd2, exceptBind_ok]⟩
          obtain ⟨ms, hms⟩ := hmemok
          simp [dumpComponent, hdm, hms, dump_callable_error_list tools htools,
            exceptBind_ok, exceptBind_error]
  | .roundRobinOrchestrator agents termination n, h => by
      by_cases hags : hasCallableList agents = true
      · simp [dumpComponent, dump_callable_error_list agents hags, exceptBind_error]
      · have hags' : hasCallableList agents = false := by simpa using hags
        obtain ⟨ams, hda, _⟩ := dump_load_list agents hags'
        have hterm : hasCallable termination = true := by
          rw [hasCallable] at h
          rcases Bool.or_eq_true_iff.mp h with h' | h'
          · exact absurd h' hags
          · exact h'
        simp [dumpComponent, hda, dump_callable_error termination hterm,
          exceptBind_ok, exceptBind_error]

theorem dump_callable_error_list : ∀ (xs : List Component), hasCallableList xs = true →
    dumpList xs = .error notImplementedMsg
  | [], h => by simp [hasCallableList] at h
  | c :: cs, h => by
      by_cases hc : hasCallable c = true
      · simp [dumpList, dump_callable_error c hc, exceptBind_error]
      · have hc' : hasCallable c = false := by simpa using hc
        obtain ⟨m, hd, _⟩ := dump_load_component c hc'
        have hcs : hasCallableList cs = true := by
          rw [hasCallableList] at h
          rcases Bool.or_eq_true_iff.mp h with h' | h'
          · exact absurd h' hc
          · exact h'
        simp [dumpList, hd, dump_callable_error_list cs hcs,
          exceptBind_ok, exceptBind_error]
end

/-- C7 (spec-modelled): for every serializable component `x` — one holding
no opaque callable — `load_component(dump_component(x))` succeeds and its
`dump_component()` equals `dump_component(x)`. -/
theorem serialization_roundtrip (x : Component) (h : hasCallable x = false) :
    ∃ m y, dumpComponent x = .ok m ∧ loadComponent m = .ok y ∧ dumpComponent y = .ok m := by
  obtain ⟨m, hd, hl⟩ := dump_load_component x h
  exact ⟨m, x, hd, hl, hd⟩

/-- The agent of `test_agent_serialization`
(05_component_serialization.py lines 92-135). -/
def exAgent : Component :=
  .agent "TestAgent" "A test agent for serialization" "You are a helpful test assistant"
    (.openAIClient "gpt-4o-mini" "sk-test-key-12345") (some (.listMemory 50)) 5 []

/-- Witness for `serialization_roundtrip` at a nested agent component. -/
theorem serialization_roundtrip_witness :
    hasCallable exAgent = false ∧
    ∃ m y, dumpComponent exAgent = .ok m ∧ loadComponent m = .ok y ∧
      dumpComponent y = .ok m :=
  ⟨rfl, serialization_roundtrip exAgent rfl⟩

/-- C8 (spec-modelled): every component holding an opaque callable — in
particular every `FunctionTool` — refuses `dump_component` with
`NotImplementedError`. -/
theorem dumpComponent_refuses_callable (x : Component) (h : hasCallable x = true) :
    dumpComponent x = .error notImplementedMsg :=
  dump_callable_error x h

/-- Witness for `dumpComponent_refuses_callable` on the `FunctionTool` of
`test_tools_serialization` (05_component_serialization.py lines 72-90). -/
theorem dumpComponent_refuses_callable_witness :
    hasCallable (Component.functionTool "example_function") = true ∧
    dumpComponent (Component.functionTool "example_function") = .error notImplementedMsg :=
  ⟨rfl, dumpComponent_refuses_callable _ rfl⟩

/-! ## SecurityMiddleware._filter_content
(src/picoagents/examples/agents/middleware_custom.py, lines 110-125)

Content strings are modelled as `List Char` with ASCII case semantics
(`str.lower` is `Char.toLower` per character).  The four default
`pii_patterns` regular expressions are embedded as hand-compiled matchers
(`ssnMatch`, `phoneMatch`, `emailMatch`, `ccMatch`), each returning the
length of the Python-regex match at a position, and `re.sub` as the
left-to-right non-overlapping scan `subScan`. -/

/-! Character classes of the PII regular expressions (ASCII semantics). -/

def isWordCh (c : Char) : Bool := c.isAlphanum || c == '_'

def wordOpt : Option Char → Bool
  | none => false
  | some c => isWordCh c

/-- The `\b` zero-width assertion at the position between `a` and `b`. -/
def boundary (a b : Option Char) : Bool := wordOpt a != wordOpt b

def isSpaceCh (c : Char) : Bool :=
  c == ' ' || c == '\t' || c == '\n' || c == '\r' || c.toNat == 11 || c.toNat == 12

/-- `[A-Za-z0-9._%+-]` -/
def isLocalCh (c : Char) : Bool :=
  c.isAlphanum || c == '.' || c == '_' || c == '%' || c == '+' || c == '-'

/-- `[A-Za-z0-9.-]` -/
def isDomainCh (c : Char) : Bool := c.isAlphanum || c == '.' || c == '-'

/-- `[A-Z|a-z]` (the `|` is a literal member of the class) -/
def isTldCh (c : Char) : Bool := c.isAlpha || c == '|'

/-- `[\s-]` -/
def isSepCh (c : Char) : Bool := isSpaceCh c || c == '-'

/-- Length of the maximal (greedy) run of `p`-characters at the head. -/
def countWhile (p : Char → Bool) : List Char → Nat
  | [] => 0
  | c :: rest => if p c then countWhile p rest + 1 else 0

/-- `\b\d{3}-\d{2}-\d{4}\b` matched at the head of `s`, `prev` being the
character before the position.  Returns the match length. -/
def ssnMatch (prev : Option Char) (s : List Char) : Option Nat :=
  match s with
  | d1 :: d2 :: d3 :: h1 :: d4 :: d5 :: h2 :: d6 :: d7 :: d8 :: d9 :: rest =>
    if boundary prev (some d1) && d1.isDigit && d2.isDigit && d3.isDigit &&
        h1 == '-' && d4.isDigit && d5.isDigit && h2 == '-' &&
        d6.isDigit && d7.isDigit && d8.isDigit && d9.isDigit &&
        boundary (some d9) rest.head? then
      some 11
    else none
  | _ => none

/-- `\b\d{3}-\d{3}-\d{4}\b` -/
def phoneMatch (prev : Option Char) (s : List Char) : Option Nat :=
  match s with
  | d1 :: d2 :: d3 :: h1 :: d4 :: d5 :: d6 :: h2 :: d7 :: d8 :: d9 :: d10 :: rest =>
    if boundary prev (some d1) && d1.isDigit && d2.isDigit && d3.isDigit &&
        h1 == '-' && d4.isDigit && d5.isDigit && d6.isDigit && h2 == '-' &&
        d7.isDigit && d8.isDigit && d9.isDigit && d10.isDigit &&
        boundary (some d10) rest.head? then
      some 12
    else none
  | _ => none

def digits4 : List Char → Option (List Char)
  | a :: b :: c :: d :: rest =>
    if a.isDigit && b.isDigit && c.isDigit && d.isDigit then some rest else none
  | _ => none

def optSep : List Char → Nat × List Char
  | [] => (0, [])
  | c :: rest => if isSepCh c then (1, rest) else (0, c :: rest)

/-- `\b\d{4}[\s-]?\d{4}[\s-]?\d{4}[\s-]?\d{4}\b`.  The greedy `[\s-]?` with
backtracking is deterministic here because the separator class and `\d` are
disjoint: if a separator was consumed and the following `\d{4}` fails, the
empty alternative also fails.  The final matched character is a digit (a
word character), so the trailing `\b` holds iff the next character is not a
word character. -/
def ccMatch (prev : Option Char) (s : List Char) : Option Nat :=
  if !(boundary prev s.head?) then none
  else
    match digits4 s with
    | none => none
    | some r1 =>
      let p1 := optSep r1
      match digits4 p1.2 with
      | none => none
      | some r2 =>
        let p2 := optSep r2
        match digits4 p2.2 with
        | none => none
        | some r3 =>
          let p3 := optSep r3
          match digits4 p3.2 with
          | none => none
          | some r4 =>
            if !(wordOpt r4.head?) then some (16 + p1.1 + p2.1 + p3.1) else none

/-- Greedy `{2,}` with backtracking for the TLD run `[A-Z|a-z]{2,}\b`:
try the run length `m` first, then shorter, down to 2. -/
def findTld (t : List Char) : Nat → Option Nat
  | 0 => none
  | 1 => none
  | m + 2 => if boundary t[m + 1]? t[m + 2]? then some (m + 2) else findTld t (m + 1)

/-- Greedy `+` with backtracking for `[A-Za-z0-9.-]+\.[A-Z|a-z]{2,}\b`:
try the longest candidate domain length first; a candidate of length `d+1`
requires a literal `.` right after it. -/
def findDomain (r2 : List Char) : Nat → Option (Nat × Nat)
  | 0 => none
  | d + 1 =>
    if r2[d + 1]? = some '.' then
      match findTld (r2.drop (d + 2)) (countWhile isTldCh (r2.drop (d + 2))) with
      | some m => some (d + 1, m)
      | none => findDomain r2 d
    else findDomain r2 d

/-- `\b[A-Za-z0-9._%+-]+@[A-Za-z0-9.-]+\.[A-Z|a-z]{2,}\b`.  The local part
is deterministic because `@` is not in its class; the domain and TLD
quantifiers backtrack greedily via `findDomain`/`findTld`. -/
def emailMatch (prev : Option Char) (s : List Char) : Option Nat :=
  let localLen := countWhile isLocalCh s
  if localLen = 0 then none
  else if !(boundary prev s.head?) then none
  else
    match s.drop localLen with
    | '@' :: r2 =>
      match findDomain r2 (countWhile isDomainCh r2) with
      | some (d, m) => some (localLen + 1 + d + 1 + m)
      | none => none
    | _ => none

/-- `re.sub` scanning: at each position try the pattern; on a match of
length `len`, emit the replacement and resume after the match (the next
position's look-behind character is the last matched character); otherwise
keep the character and advance.  The leading `Nat` is only a structural
recursion bound: every step consumes at least one character, so a bound of
the string length never expires. -/
def subScan (matcher : Option Char → List Char → Option Nat) (marker : List Char) :
    Nat → Option Char → List Char → List Char
  | 0, _, s => s
  | _ + 1, _, [] => []
  | fuel + 1, prev, c :: rest =>
    match matcher prev (c :: rest) with
    | some len =>
        marker ++ subScan matcher marker fuel (c :: rest)[len - 1]? (rest.drop (len - 1))
    | none => c :: subScan matcher marker fuel (some c) rest

/-- One full `re.sub(pattern, marker, s)` pass. -/
def subPass (matcher : Option Char → List Char → Option Nat) (marker : List Char)
    (s : List Char) : List Char :=
  subScan matcher marker s.length none s

/-- Some position of `s` matches the pattern (`prev` is the look-behind at
the first position). -/
def anyMatch (matcher : Option Char → List Char → Option Nat) :
    Option Char → List Char → Bool
  | _, [] => false
  | prev, c :: rest => (matcher prev (c :: rest)).isSome || anyMatch matcher (some c) rest

/-- The four `re.sub` passes of `_filter_content`, in the insertion order
of `self.pii_patterns` (ssn, phone, email, credit_card), each pass running
over the previous pass's output. -/
def redactPII (s : List Char) : List Char :=
  subPass ccMatch ("[REDACTED_CREDIT_CARD]".toList)
    (subPass emailMatch ("[REDACTED_EMAIL]".toList)
      (subPass phoneMatch ("[REDACTED_PHONE]".toList)
        (subPass ssnMatch ("[REDACTED_SSN]".toList) s)))

/-- No PII pattern matches anywhere in `s`. -/
def noPIIMatch (s : List Char) : Bool :=
  !(anyMatch ssnMatch none s || anyMatch phoneMatch none s ||
    anyMatch emailMatch none s || anyMatch ccMatch none s)

def lowerList (s : List Char) : List Char := s.map Char.toLower

/-- `SecurityMiddleware._filter_content` (middleware_custom.py lines
110-125): raise `ValueError` when a configured blocked keyword occurs in
the lowercased content (keywords are checked in order, as written, against
the lowercased content), otherwise redact the PII patterns. -/
def filterContent (blockedKeywords : List (List Char)) (content : List Char) :
    Except String (List Char) :=
  match blockedKeywords.find? (fun k => decide (k <:+: lowerList content)) with
  | some k => .error ("Blocked content detected: " ++ String.mk k)
  | none => .ok (redactPII content)

theorem subScan_of_no_match (matcher : Option Char → List Char → Option Nat)
    (marker : List Char) :
    ∀ (fuel : Nat) (prev : Option Char) (s : List Char),
      anyMatch matcher prev s = false → subScan matcher marker fuel prev s = s
  | 0, _, _, _ => rfl
  | _ + 1, _, [], _ => rfl
  | fuel + 1, prev, c :: rest, h => by
    rw [anyMatch, Bool.or_eq_false_iff] at h
    obtain ⟨h1, h2⟩ := h
    cases hm : matcher prev (c :: rest) with
    | none =>
      simp only [subScan, hm]
      exact congrArg _ (subScan_of_no_match matcher marker fuel (some c) rest h2)
    | some len => rw [hm] at h1; simp at h1

theorem subPass_of_no_match (matcher : Option Char → List Char → Option Nat)
    (marker : List Char) (s : List Char) (h : anyMatch matcher none s = false) :
    subPass matcher marker s = s :=
  subScan_of_no_match matcher marker s.length none s h

theorem redactPII_of_no_match (s : List Char) (h : noPIIMatch s = true) :
    redactPII s = s := by
  rw [noPIIMatch] at h
  simp only [Bool.not_eq_true', Bool.or_eq_false_iff] at h
  obtain ⟨⟨⟨hssn, hphone⟩, hemail⟩, hcc⟩ := h
  rw [redactPII, subPass_of_no_match ssnMatch _ s hssn,
    subPass_of_no_match phoneMatch _ s hphone,
    subPass_of_no_match emailMatch _ s hemail,
    subPass_of_no_match ccMatch _ s hcc]

/-- C4 (amended): `_filter_content` raises `ValueError` iff some configured
blocked keyword occurs VERBATIM in the lowercased content — the keyword
itself is not lowercased, so matching is case-insensitive exactly when the
configured keyword is lowercase (as all defaults are).  When no keyword is
present it returns the content with the four PII patterns (SSN, phone,
email, credit card) redacted by sequential `re.sub` passes with the
corresponding `[REDACTED_*]` markers, and content matching no PII pattern
is returned unchanged. -/
theorem filterContent_spec (blockedKeywords : List (List Char)) (content : List Char) :
    ((∃ e, filterContent blockedKeywords content = .error e) ↔
        ∃ k ∈ blockedKeywords, k <:+: lowerList content)
    ∧ ((∀ k ∈ blockedKeywords, ¬ (k <:+: lowerList content)) →
        filterContent blockedKeywords content = .ok (redactPII content))
    ∧ ((∀ k ∈ blockedKeywords, ¬ (k <:+: lowerList content)) → noPIIMatch content = true →
        filterContent blockedKeywords content = .ok content) := by
  have hfnone : (∀ k ∈ blockedKeywords, ¬ (k <:+: lowerList content)) →
      blockedKeywords.find? (fun k => decide (k <:+: lowerList content)) = none := by
    intro hnone
    exact List.find?_eq_none.mpr (fun k hk => by simpa using hnone k hk)
  refine ⟨⟨?_, ?_⟩, ?_, ?_⟩
  · rintro ⟨e, he⟩
    unfold filterContent at he
    cases hf : blockedKeywords.find? (fun k => decide (k <:+: lowerList content)) with
    | none => rw [hf] at he; simp at he
    | some k =>
      have hk := List.mem_of_find?_eq_some hf
      have hp := List.find?_some hf
      exact ⟨k, hk, by simpa using hp⟩
  · rintro ⟨k, hk, hinf⟩
    cases hf : blockedKeywords.find? (fun k => decide (k <:+: lowerList content)) with
    | some k' =>
      exact ⟨"Blocked content detected: " ++ String.mk k', by unfold filterContent; rw [hf]⟩
    | none =>
      rw [List.find?_eq_none] at hf
      exact absurd hinf (by simpa using hf k hk)
  · intro hnone
    unfold filterContent
    rw [hfnone hnone]
  · intro hnone hno
    unfold filterContent
    rw [hfnone hnone, redactPII_of_no_match content hno]

/-- The default `blocked_keywords` of `SecurityMiddleware.__init__`. -/
def defaultBlockedKeywords : List (List Char) :=
  ["hack".toList, "exploit".toList, "virus".toList,
   "malware".toList, "attack".toList, "breach".toList]

/-- C4 counterexample: keyword matching is NOT case-insensitive for the
configured keyword.  With blocked keyword `"HACK"`, the content `"hack"`
contains the keyword case-insensitively (their lowercasings coincide), yet
`_filter_content` does not raise — it returns the content unchanged —
because only the content is lowercased before the verbatim `in` check. -/
theorem filterContent_not_case_insensitive :
    (lowerList "HACK".toList <:+: lowerList "hack".toList)
    ∧ filterContent ["HACK".toList] "hack".toList = .ok "hack".toList := by
  exact ⟨by decide, rfl⟩

/-- Witness for `filterContent_spec`: keyword-free, PII-free content
passes through unchanged; and a concrete SSN is redacted. -/
theorem filterContent_spec_witness :
    ((∀ k ∈ defaultBlockedKeywords, ¬ (k <:+: lowerList "Hello there".toList))
      ∧ noPIIMatch "Hello there".toList = true
      ∧ filterContent defaultBlockedKeywords "Hello there".toList = .ok "Hello there".toList)
    ∧ filterContent defaultBlockedKeywords "My SSN is 123-45-6789.".toList =
        .ok "My SSN is [REDACTED_SSN].".toList :=
  ⟨⟨by decide, by decide,
      (filterContent_spec defaultBlockedKeywords "Hello there".toList).2.2
        (by decide) (by decide)⟩,
    rfl⟩
